import Mathlib

/-!
Verification development for the DeltAI site crawler (`deltai_crawler.py`).

The crawler's pure helpers (`is_allowed`, `sha1_text`, `summarize`,
`guess_filename`, `extract_pdf_text`, `extract_docx_text`,
`discover_links`, `html_is_article`) are embedded as executable Lean
functions, translated from the Python source.  Library calls that the
source makes (`urllib.parse.urlparse`, `urllib.robotparser`, `hashlib.sha1`,
`str.split`, `str.replace`, ...) are embedded from their CPython
implementations where the crawler's behaviour depends on them; network
fetches and the HTML/PDF/DOCX parsing libraries are abstracted as an
environment of oracles.  The `main` crawl loop is embedded as a fuelled
transition function over an explicit crawl state.
-/

/-! ## Basic list/character utilities (models of Python string primitives) -/

/-- The upper-to-lower table of the ASCII letters. -/
def lowerTable : List (Char × Char) :=
  [('A', 'a'), ('B', 'b'), ('C', 'c'), ('D', 'd'), ('E', 'e'), ('F', 'f'),
   ('G', 'g'), ('H', 'h'), ('I', 'i'), ('J', 'j'), ('K', 'k'), ('L', 'l'),
   ('M', 'm'), ('N', 'n'), ('O', 'o'), ('P', 'p'), ('Q', 'q'), ('R', 'r'),
   ('S', 's'), ('T', 't'), ('U', 'u'), ('V', 'v'), ('W', 'w'), ('X', 'x'),
   ('Y', 'y'), ('Z', 'z')]

/-- ASCII lower-casing of a single character (explicit table).  Models
`str.lower` for the ASCII range; the crawler only compares against
ASCII constants. -/
def asciiLowerC (c : Char) : Char :=
  match List.lookup c lowerTable with
  | some d => d
  | none => c

/-- ASCII lower-casing of a string (model of Python `str.lower()`). -/
def asciiLower (s : String) : String :=
  String.mk (s.data.map asciiLowerC)

/-- Model of Python `big.endswith(small)` over code points. -/
def strEndsWith (s t : String) : Bool :=
  t.data.isSuffixOf s.data

/-- Does `needle` occur as a contiguous sublist of `hay`?  Model of the
Python substring test `needle in hay`. -/
def hasSubList (needle hay : List Char) : Bool :=
  hay.tails.any (fun t => needle.isPrefixOf t)

/-- Model of Python `sub in s` for strings. -/
def pyContains (s sub : String) : Bool :=
  hasSubList sub.data s.data

/-- Split a list at the first occurrence of `c`: returns the prefix before
`c` and, when `c` occurs, the remainder after it.  Used to model Python's
`str.split(sep, 1)` and `str.find`. -/
def splitAtFirst (c : Char) : List Char → List Char × Option (List Char)
  | [] => ([], none)
  | x :: xs =>
    if x = c then ([], some xs)
    else
      match splitAtFirst c xs with
      | (pre, post) => (x :: pre, post)

/-- Split a list at the last occurrence of `c` (before, after). -/
def splitAtLast (c : Char) (l : List Char) : Option (List Char × List Char) :=
  match splitAtFirst c l.reverse with
  | (_, none) => none
  | (afterRev, some beforeRev) => some (beforeRev.reverse, afterRev.reverse)

/-- Python whitespace class used by no-argument `str.split()` and
`str.strip()` (ASCII part; the crawler's data is ASCII-dominated and the
denylist constants contain no whitespace). -/
def pyIsSpace (c : Char) : Bool :=
  c = ' ' || c = '\t' || c = '\n' || c = '\r' || c.toNat = 11 || c.toNat = 12

/-- Worker for `pySplit`: accumulates the current word (reversed). -/
def pySplitGo : List Char → List Char → List (List Char)
  | [], acc => if acc = [] then [] else [acc.reverse]
  | c :: rest, acc =>
    if pyIsSpace c then
      if acc = [] then pySplitGo rest [] else acc.reverse :: pySplitGo rest []
    else pySplitGo rest (c :: acc)

/-- Model of Python's no-argument `str.split()`: split on runs of
whitespace, dropping empty fields. -/
def pySplit (s : String) : List String :=
  (pySplitGo s.data []).map String.mk

/-- Model of Python `str.strip()`: drop leading and trailing whitespace. -/
def pyStrip (s : String) : String :=
  String.mk (((s.data.dropWhile pyIsSpace).reverse.dropWhile pyIsSpace).reverse)

/-- Replace every (non-overlapping, left-to-right) occurrence of `pat`
by `rep`.  The scan consumes at least one character per step, so the
`fuel` argument (instantiated with the input length) never runs out; it
only makes the recursion structural. -/
def replaceAllGo (pat rep : List Char) : Nat → List Char → List Char
  | 0, l => l
  | fuel + 1, l =>
    match l with
    | [] => []
    | x :: xs =>
      if pat ≠ [] ∧ pat.isPrefixOf (x :: xs) then
        rep ++ replaceAllGo pat rep fuel ((x :: xs).drop pat.length)
      else
        x :: replaceAllGo pat rep fuel xs

/-- Model of Python `s.replace(pat, rep)` (the crawler only uses non-empty
patterns, for which this is exact). -/
def pyReplace (s pat rep : String) : String :=
  String.mk (replaceAllGo pat.data rep.data s.data.length s.data)

/-- Model of Python `" ".join(parts)`. -/
def joinSpace (parts : List String) : String :=
  String.mk (List.intercalate [' '] (parts.map String.data))

/-! ## `urllib.parse.urlparse` (CPython model) and the Scope Filter -/

/-- Result of `urllib.parse.urlparse`: the components the crawler reads
(`params` is folded into the computation of `path`). -/
structure ParsedUrl where
  scheme : String
  netloc : String
  path : String
  query : String
  fragment : String
deriving DecidableEq

/-- Characters allowed in a URL scheme after the first letter
(CPython `scheme_chars`). -/
def isSchemeChar (c : Char) : Bool :=
  c.isAlpha || c.isDigit || c = '+' || c = '-' || c = '.'

/-- Modelled from CPython 3.12 `urllib.parse.urlsplit`: strip leading
C0-control-or-space characters, then remove every tab, carriage return
and line feed. -/
def urlScrub (l : List Char) : List Char :=
  (l.dropWhile (fun c => c.toNat ≤ 32)).filter
    (fun c => !(c = '\t' || c = '\r' || c = '\n'))

/-- Scheme detection of CPython `urlsplit`: a `:` at position `i > 0`
whose prefix starts with an ASCII letter and consists of scheme
characters splits off the (lower-cased) scheme. -/
def splitScheme (l : List Char) : List Char × List Char :=
  match splitAtFirst ':' l with
  | (_, none) => ([], l)
  | (pre, some post) =>
    match pre with
    | [] => ([], l)
    | c0 :: _ =>
      if c0.isAlpha ∧ pre.all isSchemeChar then (pre.map asciiLowerC, post)
      else ([], l)

/-- Netloc extraction of CPython `_splitnetloc`: after a leading `//`,
the netloc runs until the first `/`, `?` or `#`. -/
def isNetlocEnd (c : Char) : Bool :=
  c = '/' || c = '?' || c = '#'

/-- Schemes for which CPython `urlparse` splits `;parameters` off the
path (`uses_params`, minus the empty scheme which is handled inline). -/
def usesParams : List String :=
  ["", "ftp", "hdl", "prospero", "http", "imap", "https", "shttp", "rtsp",
   "rtspu", "sip", "sips", "mms", "sftp", "tel"]

/-- CPython `_splitparams`: cut the path at the first `;` occurring in its
last `/`-segment; if no such `;` exists the path is unchanged. -/
def splitParamsPath (l : List Char) : List Char :=
  match splitAtLast '/' l with
  | none => (splitAtFirst ';' l).1
  | some (pre, post) =>
    match splitAtFirst ';' post with
    | (cut, some _) => pre ++ '/' :: cut
    | (_, none) => l

/-- The remainder of the pre-cleaned URL after scheme detection. -/
def urlAfterScheme (u : String) : List Char :=
  (splitScheme (urlScrub u.data)).2

/-- The (lower-cased) scheme of the pre-cleaned URL. -/
def urlSchemeOf (u : String) : List Char :=
  (splitScheme (urlScrub u.data)).1

/-- Does the remainder start with `//` (netloc present)? -/
def urlHasNetloc (u : String) : Bool :=
  decide ('/' :: '/' :: [] = (urlAfterScheme u).take 2)

/-- The netloc (empty when no `//` follows the scheme). -/
def urlNetloc (u : String) : List Char :=
  if urlHasNetloc u then ((urlAfterScheme u).drop 2).takeWhile (fun c => !isNetlocEnd c)
  else []

/-- What remains after removing scheme and netloc. -/
def urlRest2 (u : String) : List Char :=
  if urlHasNetloc u then ((urlAfterScheme u).drop 2).dropWhile (fun c => !isNetlocEnd c)
  else urlAfterScheme u

/-- The fragment: everything after the first `#` of the remainder. -/
def urlFragment (u : String) : List Char :=
  match (splitAtFirst '#' (urlRest2 u)).2 with
  | some f => f
  | none => []

/-- The query: everything after the first `?` of the defragmented remainder. -/
def urlQuery (u : String) : List Char :=
  match (splitAtFirst '?' (splitAtFirst '#' (urlRest2 u)).1).2 with
  | some q => q
  | none => []

/-- The raw path: the defragmented remainder up to the first `?`. -/
def urlPath0 (u : String) : List Char :=
  (splitAtFirst '?' (splitAtFirst '#' (urlRest2 u)).1).1

/-- The path after the `urlparse` parameter split. -/
def urlPathFinal (u : String) : List Char :=
  if String.mk (urlSchemeOf u) ∈ usesParams ∧ ';' ∈ urlPath0 u then splitParamsPath (urlPath0 u)
  else urlPath0 u

/-- Modelled from CPython 3.12 `urllib.parse.urlparse` (composition of
`urlsplit` and the `uses_params` parameter split): pre-cleaning, scheme
detection, `//`-netloc extraction with the IPv6 bracket validation
(`ValueError` is modelled as `none`), fragment split at the first `#`,
query split at the first `?`.  The NFKC netloc check and bracketed-host
validation of newer CPython, which also raise only on exotic inputs, are
not modelled. -/
def pyUrlparse (u : String) : Option ParsedUrl :=
  if ('[' ∈ urlNetloc u ∧ ']' ∉ urlNetloc u) ∨ (']' ∈ urlNetloc u ∧ '[' ∉ urlNetloc u) then
    none
  else
    some { scheme := String.mk (urlSchemeOf u),
           netloc := String.mk (urlNetloc u),
           path := String.mk (urlPathFinal u),
           query := String.mk (urlQuery u),
           fragment := String.mk (urlFragment u) }

/-- `ALLOWED_NETLOCS` from the source. -/
def ALLOWED_NETLOCS : List String := ["deltawonen.nl", "www.deltawonen.nl"]

/-- The extensions of the static-asset denylist regex
`\.(jpg|jpeg|png|gif|svg|webp|ico|css|js|woff2?|ttf|eot|mp4|webm|zip|rar)(\?.*)?$`
(`woff2?` expanded to its two alternatives). -/
def EXTS : List String :=
  ["jpg", "jpeg", "png", "gif", "svg", "webp", "ico", "css", "js", "woff",
   "woff2", "ttf", "eot", "mp4", "webm", "zip", "rar"]

/-- Model of `re.search(r"\.(...)(\?.*)?$", path, re.I)` as a Boolean:
the lower-cased path either ends with `.ext`, or contains `.ext?`
(the `(\?.*)?$` alternative).  Exact for inputs without newlines, which
`pyUrlparse` guarantees for parsed paths. -/
def staticExtSearch (path : String) : Bool :=
  EXTS.any (fun e =>
    (("." ++ e).data.isSuffixOf (asciiLower path).data) ||
    hasSubList ("." ++ e ++ "?").data (asciiLower path).data)

/-- `is_allowed` from the source: scheme must be http/https, the
lower-cased netloc must be in `ALLOWED_NETLOCS`, and the path must not
match the static-asset regex.  The Python `try/except` returning `False`
on a `urlparse` error is the `none` branch. -/
def is_allowed (url : String) : Bool :=
  match pyUrlparse url with
  | none => false
  | some p =>
    if ¬(p.scheme = "http" ∨ p.scheme = "https") then false
    else if ¬(asciiLower p.netloc ∈ ALLOWED_NETLOCS) then false
    else if staticExtSearch p.path then false
    else true

/-! ## `sha1_text` (model of `hashlib.sha1(s.encode("utf-8","ignore")).hexdigest()`) -/

/-- UTF-8 encoding of one character.  Lean characters are valid Unicode
scalar values, so Python's `"ignore"` error handler never fires. -/
def utf8Char (c : Char) : List Nat :=
  let n := c.toNat
  if n < 128 then [n]
  else if n < 2048 then [192 + n / 64, 128 + n % 64]
  else if n < 65536 then [224 + n / 4096, 128 + n / 64 % 64, 128 + n % 64]
  else [240 + n / 262144, 128 + n / 4096 % 64, 128 + n / 64 % 64, 128 + n % 64]

/-- UTF-8 byte sequence of a string (model of `s.encode("utf-8","ignore")`). -/
def utf8Bytes (s : String) : List Nat :=
  (s.data.map utf8Char).flatten

/-- 32-bit left rotation on `Nat` (inputs kept below `2 ^ 32`). -/
def rotl (b n : Nat) : Nat :=
  (n * 2 ^ b) % 2 ^ 32 + n / 2 ^ (32 - b)

/-- Big-endian 8-byte encoding of a number (the SHA-1 length field). -/
def beBytes8 (n : Nat) : List Nat :=
  (List.range 8).map (fun i => n / 2 ^ (8 * (7 - i)) % 256)

/-- SHA-1 padding: append `0x80`, zeros to 56 mod 64, then the bit
length as 8 big-endian bytes. -/
def sha1Pad (msg : List Nat) : List Nat :=
  msg ++ 128 :: List.replicate ((119 - msg.length % 64) % 64) 0 ++ beBytes8 (msg.length * 8)

/-- Split a byte list into 64-byte chunks.  The fuel (instantiated with
the list length) only makes the recursion structural. -/
def chunks64 : Nat → List Nat → List (List Nat)
  | 0, _ => []
  | fuel + 1, l => if l = [] then [] else l.take 64 :: chunks64 fuel (l.drop 64)

/-- The 16 initial 32-bit words of a chunk (big-endian). -/
def chunkWords (chunk : List Nat) : List Nat :=
  (List.range 16).map (fun i =>
    chunk.getD (4 * i) 0 * 16777216 + chunk.getD (4 * i + 1) 0 * 65536 +
    chunk.getD (4 * i + 2) 0 * 256 + chunk.getD (4 * i + 3) 0)

/-- One step of the SHA-1 message-schedule extension. -/
def sha1ExtendStep (w : List Nat) : List Nat :=
  let n := w.length
  w ++ [rotl 1 ((w.getD (n - 3) 0 ^^^ w.getD (n - 8) 0) ^^^
                (w.getD (n - 14) 0 ^^^ w.getD (n - 16) 0))]

/-- The 80-word message schedule of a chunk. -/
def sha1Sched (chunk : List Nat) : List Nat :=
  (List.range 64).foldl (fun w _ => sha1ExtendStep w) (chunkWords chunk)

/-- The SHA-1 round function `f` for round `t`. -/
def sha1F (t b c d : Nat) : Nat :=
  if t < 20 then (b &&& c) ||| ((b ^^^ 4294967295) &&& d)
  else if t < 40 then (b ^^^ c) ^^^ d
  else if t < 60 then ((b &&& c) ||| (b &&& d)) ||| (c &&& d)
  else (b ^^^ c) ^^^ d

/-- The SHA-1 round constant `K` for round `t`. -/
def sha1K (t : Nat) : Nat :=
  if t < 20 then 1518500249
  else if t < 40 then 1859775393
  else if t < 60 then 2400959708
  else 3395469782

/-- Process one 64-byte chunk: 80 rounds followed by the modular sums. -/
def sha1Chunk (h : Nat × Nat × Nat × Nat × Nat) (chunk : List Nat) :
    Nat × Nat × Nat × Nat × Nat :=
  let w := sha1Sched chunk
  let r := (List.range 80).foldl
    (fun s t =>
      let temp := (rotl 5 s.1 + sha1F t s.2.1 s.2.2.1 s.2.2.2.1 + s.2.2.2.2 +
                   sha1K t + w.getD t 0) % 2 ^ 32
      (temp, s.1, rotl 30 s.2.1, s.2.2.1, s.2.2.2.1))
    h
  ((h.1 + r.1) % 2 ^ 32, (h.2.1 + r.2.1) % 2 ^ 32, (h.2.2.1 + r.2.2.1) % 2 ^ 32,
   (h.2.2.2.1 + r.2.2.2.1) % 2 ^ 32, (h.2.2.2.2 + r.2.2.2.2) % 2 ^ 32)

/-- SHA-1 digest of a byte list as five 32-bit words. -/
def sha1Words (msg : List Nat) : List Nat :=
  let padded := sha1Pad msg
  let h := (chunks64 padded.length padded).foldl sha1Chunk
    (1732584193, 4023233417, 2562383102, 271733878, 3285377520)
  [h.1, h.2.1, h.2.2.1, h.2.2.2.1, h.2.2.2.2]

/-- A lower-case hexadecimal digit. -/
def hexDigit (n : Nat) : Char :=
  if n < 10 then Char.ofNat (48 + n) else Char.ofNat (87 + n)

/-- A 32-bit word as eight hexadecimal characters (as in `hexdigest`). -/
def wordHex (w : Nat) : List Char :=
  (List.range 8).map (fun i => hexDigit (w / 2 ^ (4 * (7 - i)) % 16))

/-- `sha1_text` from the source: hex digest of the UTF-8 encoding. -/
def sha1_text (s : String) : String :=
  String.mk ((sha1Words (utf8Bytes s)).map wordHex).flatten

/-! ## `summarize`, `html_is_article`, extraction and filename helpers -/

/-- `summarize` from the source:
`txt = " ".join(text.split()); return txt[:max_chars] + ("…" if len(txt) > max_chars else "")`. -/
def summarize (text : String) (max_chars : Nat) : String :=
  let txt := joinSpace (pySplit text)
  String.mk (txt.data.take max_chars) ++ (if max_chars < txt.data.length then "…" else "")

/-- `html_is_article` from the source: `len(text.split()) >= 50`. -/
def html_is_article (text : String) : Bool :=
  decide (50 ≤ (pySplit text).length)

/-- Outcome of the PDF text-extraction library call
(`pdfminer.high_level.extract_text`): a raised exception, `None`, or a
string.  Supplied by the environment per content. -/
inductive ExtractOutcome where
  | raised (msg : String)
  | null
  | text (t : String)
deriving DecidableEq

/-- `extract_pdf_text` from the source: library result `or ""`, with an
exception captured as the failure marker. -/
def extract_pdf_text (outcome : ExtractOutcome) : String :=
  match outcome with
  | .raised e => "[[PDF extract failed: " ++ e ++ "]]"
  | .null => ""
  | .text t => t

/-- Outcome of opening a DOCX document: a raised exception or the
paragraph texts in document order. -/
inductive DocxOutcome where
  | raised (msg : String)
  | paragraphs (ps : List String)
deriving DecidableEq

/-- `extract_docx_text` from the source: newline-joined paragraph texts,
with an exception captured as the failure marker. -/
def extract_docx_text (outcome : DocxOutcome) : String :=
  match outcome with
  | .raised e => "[[DOCX extract failed: " ++ e ++ "]]"
  | .paragraphs ps => String.mk (List.intercalate ['\n'] (ps.map String.data))

/-- Characters kept verbatim by the filename sanitizer
(`re.sub(r"[^A-Za-z0-9._-]+", "_", name)`). -/
def fnameOkChar (c : Char) : Bool :=
  c.isAlpha || c.isDigit || c = '.' || c = '_' || c = '-'

/-- Worker for the sanitizer: a maximal run of disallowed characters
becomes a single `_`.  The flag records whether the previous character
was part of such a run. -/
def sanitizeGo : Bool → List Char → List Char
  | _, [] => []
  | prevBad, c :: rest =>
    if fnameOkChar c then c :: sanitizeGo false rest
    else if prevBad then sanitizeGo true rest
    else '_' :: sanitizeGo true rest

/-- `os.path.basename` (POSIX): the part after the last `/`. -/
def basenameOf (p : String) : String :=
  match splitAtLast '/' p.data with
  | none => p
  | some (_, post) => String.mk post

/-- The `path` component of `urlparse(url)`.  `guess_filename` calls
`urlparse` outside any `try`; at its call sites the URL has already
passed `is_allowed`, so the parse cannot fail and the `none` branch is
unreachable. -/
def urlPathOf (u : String) : String :=
  match pyUrlparse u with
  | some p => p.path
  | none => ""

/-- Model of `re.search(r'filename="?([^"]+)"?', cd)`, the capture part:
behind a `filename=` match, skip an optional opening quote and take the
maximal run `([^"]+)` of non-quote characters. -/
def cdCapture (l : List Char) : List Char :=
  (if (l.drop 9).take 1 = ['"'] then (l.drop 9).drop 1 else l.drop 9).takeWhile
    (fun x => x ≠ '"')

/-- The scan of the `filename=` regex over the header value. -/
def cdFilenameGo : List Char → Option (List Char)
  | [] => none
  | c :: rest =>
    if ("filename=".data).isPrefixOf (c :: rest) ∧ cdCapture (c :: rest) ≠ [] then
      some (cdCapture (c :: rest))
    else cdFilenameGo rest

/-- Model of `headers.get(k)` over the response-header association list. -/
def headersGet (headers : List (String × String)) (k : String) : Option String :=
  List.lookup k headers

/-- `guess_filename` from the source: basename of the URL path (or
`"download"`), overridden by a `Content-Disposition` filename when the
regex matches, then sanitized. -/
def guess_filename (url : String) (headers : List (String × String)) : String :=
  let name0 := basenameOf (urlPathOf url)
  let name1 := if name0 = "" then "download" else name0
  let cd := match headersGet headers "Content-Disposition" with
    | some v => if v = "" then (headersGet headers "content-disposition").getD "" else v
    | none => (headersGet headers "content-disposition").getD ""
  let name2 := match cdFilenameGo cd.data with
    | some n => String.mk n
    | none => name1
  String.mk (sanitizeGo false name2.data)

/-! ## Robots policy (model of `urllib.robotparser.RobotFileParser`) -/

/-- Internal state of a `RobotFileParser` after `get_robot_parser` ran.
`unread` is the state when `rp.read()` raised (the exception that the
crawler's `try/except` swallows) or the server answered with a status
outside 200 and 400-499: `last_checked` stays 0 and no flag is set. -/
inductive RobotsState where
  | unread
  | disallowAll
  | allowAll
  | parsed (rules : String → Bool)

/-- Outcome of fetching `robots.txt` at start-up, supplied by the
environment. -/
inductive RobotsReadOutcome where
  | raised
  | httpError (code : Nat)
  | fetched (rules : String → Bool)

/-- Model of the source's `get_robot_parser` composed with CPython
`RobotFileParser.read`: an `HTTPError` with code 401/403 sets
`disallow_all`, any other 4xx sets `allow_all`, any other swallowed
error (transport failure, decode failure, 5xx) leaves the parser
unread; a successful fetch parses the file into per-URL rules for the
crawler's user agent.  The network read happens once, at start-up. -/
def get_robot_policy : RobotsReadOutcome → RobotsState
  | .raised => .unread
  | .httpError code =>
    if code = 401 ∨ code = 403 then .disallowAll
    else if 400 ≤ code ∧ code < 500 then .allowAll
    else .unread
  | .fetched rules => .parsed rules

/-- Model of CPython `RobotFileParser.can_fetch`: `disallow_all` and
`allow_all` are checked first; an unread parser (`last_checked` is 0)
refuses every URL; otherwise the parsed rules decide. -/
def rpCanFetch : RobotsState → String → Bool
  | .disallowAll, _ => false
  | .allowAll, _ => true
  | .unread, _ => false
  | .parsed rules, u => rules u

/-- `allowed_by_robots` from the source.  Its `except: return True` guard
is unreachable in the model because `rpCanFetch` is total. -/
def allowed_by_robots (rs : RobotsState) (u : String) : Bool :=
  rpCanFetch rs u

/-! ## Data model and crawl loop -/

/-- `PageItem` from the source, one JSONL record of the raw-page stream.
The wall-clock `fetched_at` timestamp is not modelled. -/
structure PageItem where
  url : String
  content_type : String
  title : String
  text : String
  status : Nat
  sha1 : String
  links : List String
deriving DecidableEq

/-- One record of the `qa.jsonl` stream. -/
structure QAItem where
  question : String
  answer : String
  tags : List String
  sources : List String
deriving DecidableEq

/-- Result of `fetch(url)`: either a transport-level exception or
`(status, content-type header, body bytes, headers)`.  Body bytes are
modelled as a string consumed only by the extraction oracles. -/
inductive FetchOutcome where
  | exn (msg : String)
  | ok (status : Nat) (ctype : String) (body : String) (headers : List (String × String))
deriving DecidableEq

/-- Environment of a crawl run: the robots state built at start-up, the
page budget, and oracles for the network and for the HTML/PDF/DOCX
parsing libraries. -/
structure Env where
  rp : RobotsState
  maxPages : Nat
  fetch : String → FetchOutcome
  cleanHtml : String → String × String
  fullText : String → String
  absHrefs : String → String → List String
  pdfRaw : String → ExtractOutcome
  docxRaw : String → DocxOutcome

/-- Mutable state of the crawl loop.  `sleeps` counts the executed
`time.sleep(args.delay)` calls. -/
structure CrawlState where
  queue : List String
  seen : List String
  raw : List PageItem
  qa : List QAItem
  count : Nat
  sleeps : Nat
deriving DecidableEq

/-- Order-preserving deduplication, model of `list(dict.fromkeys(out))`. -/
def dedupFirst (l : List String) : List String :=
  l.foldl (fun acc u => if u ∈ acc then acc else acc ++ [u]) []

/-- `discover_links` from the source: absolutized anchor hrefs (an
oracle, `urljoin` composed with anchor parsing), filtered through
`is_allowed`, deduplicated keeping first occurrences. -/
def discover_links (env : Env) (base html : String) : List String :=
  dedupFirst ((env.absHrefs base html).filter is_allowed)

/-- The body of the `status == 200` / non-200 classification in `main`,
for a URL that was just fetched: returns the `PageItem` written to
`raw_pages.jsonl`, the `QAItem`s written to `qa.jsonl`, and the URLs
enqueued to the frontier. -/
def processFetched (env : Env) (url : String) (seen : List String) (status : Nat)
    (ctype : String) (body : String) (headers : List (String × String)) :
    PageItem × List QAItem × List String :=
  let ctypeLow := asciiLower ctype
  if status = 200 then
    if pyContains ctypeLow "text/html" then
      let tt := env.cleanHtml body
      let title := tt.1
      let text := if html_is_article tt.2 then tt.2 else env.fullText body
      let links := discover_links env url body
      let enq := links.filter (fun u2 =>
        !(seen.contains u2) && is_allowed u2 && allowed_by_robots env.rp u2)
      (⟨url, "html", title, text, status, sha1_text text, links⟩,
       if title ≠ "" ∧ text ≠ "" then
         [⟨title, summarize text 1000, ["deltawonen", "html"], [url]⟩]
       else [],
       enq)
    else if pyContains ctypeLow "application/pdf" ∨ strEndsWith (asciiLower url) ".pdf" then
      let fname := guess_filename url headers
      let text := extract_pdf_text (env.pdfRaw body)
      (⟨url, "pdf", fname, text, status, sha1_text text, []⟩,
       [⟨pyStrip (pyReplace (pyReplace fname ".pdf" "") "_" " "),
         summarize text 1000, ["deltawonen", "pdf"], [url]⟩],
       [])
    else if pyContains ctypeLow "application/vnd.openxmlformats-officedocument.wordprocessingml.document"
        ∨ strEndsWith (asciiLower url) ".docx" then
      let fname := guess_filename url headers
      let text := extract_docx_text (env.docxRaw body)
      (⟨url, "docx", fname, text, status, sha1_text text, []⟩,
       [⟨pyStrip (pyReplace (pyReplace fname ".docx" "") "_" " "),
         summarize text 1000, ["deltawonen", "docx"], [url]⟩],
       [])
    else
      (⟨url, ctypeLow, "", "", status, "", []⟩, [], [])
  else
    (⟨url, "error", "", "HTTP " ++ toString status, status, "", []⟩, [], [])

/-- One iteration of the `while` loop in `main`: dequeue a URL; skip it
(without counting or sleeping) when already seen; otherwise mark it
seen and fetch.  A transport exception writes the error record and
`continue`s - before the `count += 1` and `time.sleep` lines.  A
successful fetch classifies, writes, enqueues, counts and sleeps. -/
def crawlStep (env : Env) (st : CrawlState) : CrawlState :=
  match st.queue with
  | [] => st
  | url :: rest =>
    if url ∈ st.seen then { st with queue := rest }
    else
      let seen := url :: st.seen
      match env.fetch url with
      | .exn e =>
        { st with
          queue := rest,
          seen := seen,
          raw := st.raw ++ [⟨url, "error", "", "[[FETCH ERROR: " ++ e ++ "]]", 0, "", []⟩] }
      | .ok status ctype body headers =>
        let t := processFetched env url seen status ctype body headers
        { queue := rest ++ t.2.2,
          seen := seen,
          raw := st.raw ++ [t.1],
          qa := st.qa ++ t.2.1,
          count := st.count + 1,
          sleeps := st.sleeps + 1 }

/-- The fuelled `while not q.empty() and count < args.max_pages` loop. -/
def crawl (env : Env) : Nat → CrawlState → CrawlState
  | 0, st => st
  | fuel + 1, st =>
    if st.queue ≠ [] ∧ st.count < env.maxPages then crawl env fuel (crawlStep env st)
    else st

/-- The initial state of `main`: the frontier is seeded from the sitemap
URLs plus the start URLs (supplied as `seeds`), each filtered by the
Scope Filter and the Robots Policy. -/
def initState (env : Env) (seeds : List String) : CrawlState :=
  { queue := seeds.filter (fun u => is_allowed u && allowed_by_robots env.rp u),
    seen := [],
    raw := [],
    qa := [],
    count := 0,
    sleeps := 0 }

/-- The shape of the raw records that come with a QA record: an html
record with non-empty title and text, or a pdf/docx record (whose title,
a sanitized filename, is always non-empty). -/
def qaQualifies (r : PageItem) : Prop :=
  (r.content_type = "html" ∧ r.title ≠ "" ∧ r.text ≠ "") ∨
  ((r.content_type = "pdf" ∨ r.content_type = "docx") ∧ r.title ≠ "")

/-! ## Concrete environments used for counterexamples and witnesses -/

/-- A robots state whose parsed rules allow everything (the usual case of
a permissive robots.txt). -/
def robotsOpen : RobotsState := .parsed (fun _ => true)

/-- A trivially-empty set of library oracles, overridden per scenario. -/
def envBase : Env :=
  { rp := robotsOpen,
    maxPages := 10,
    fetch := fun _ => .exn "offline",
    cleanHtml := fun _ => ("", ""),
    fullText := fun _ => "",
    absHrefs := fun _ _ => [],
    pdfRaw := fun _ => .raised "offline",
    docxRaw := fun _ => .raised "offline" }

/-- Scenario: a single in-scope PDF whose extraction returns `None`
(so the extracted text is empty). -/
def envPdfEmpty : Env :=
  { envBase with
    fetch := fun u =>
      if u = "https://www.deltawonen.nl/f.pdf" then .ok 200 "application/pdf" "PDFBYTES" []
      else .exn "offline",
    pdfRaw := fun _ => .null }

/-- Scenario: an in-scope HTML page whose extraction yields an empty
body text, and a second URL whose fetch raises. -/
def envHtmlEmpty : Env :=
  { envBase with
    fetch := fun u =>
      if u = "https://www.deltawonen.nl/empty" then .ok 200 "text/html" "HTML" []
      else .exn "boom",
    cleanHtml := fun _ => ("Empty page", "") }

/-- Scenario: every fetch raises a transport exception. -/
def envDown : Env :=
  { envBase with
    fetch := fun _ => .exn "boom" }

/-- Scenario: every fetch answers HTTP 404 with a `text/html`
content-type header. -/
def env404 : Env :=
  { envBase with
    fetch := fun _ => .ok 404 "text/html" "" [] }

/-- Scenario: page `a` links to `b` and `c`, page `b` links to `c`. -/
def envLinks : Env :=
  { envBase with
    fetch := fun u =>
      if u = "https://www.deltawonen.nl/a" then .ok 200 "text/html" "PA" []
      else if u = "https://www.deltawonen.nl/b" then .ok 200 "text/html" "PB" []
      else if u = "https://www.deltawonen.nl/c" then .ok 200 "text/html" "PC" []
      else .exn "offline",
    cleanHtml := fun _ => ("Title", "body"),
    fullText := fun _ => "page text",
    absHrefs := fun base _ =>
      if base = "https://www.deltawonen.nl/a" then
        ["https://www.deltawonen.nl/b", "https://www.deltawonen.nl/c"]
      else if base = "https://www.deltawonen.nl/b" then
        ["https://www.deltawonen.nl/c"]
      else [] }

/-! ## Lemmas about the URL parser -/

theorem splitAtFirst_fst_subset (c : Char) (l : List Char) :
    ∀ x ∈ (splitAtFirst c l).1, x ∈ l := by
  induction l with
  | nil => simp [splitAtFirst]
  | cons a as ih =>
    intro x hx
    by_cases hac : a = c
    · simp [splitAtFirst, hac] at hx
    · cases hsp : splitAtFirst c as with
      | mk pre post =>
        rw [hsp] at ih
        simp only [splitAtFirst, if_neg hac, hsp] at hx
        rcases List.mem_cons.mp hx with h1 | h1
        · exact h1 ▸ List.mem_cons_self a as
        · exact List.mem_cons_of_mem _ (ih x h1)

theorem splitAtFirst_fst_not_mem (c : Char) (l : List Char) :
    c ∉ (splitAtFirst c l).1 := by
  induction l with
  | nil => simp [splitAtFirst]
  | cons a as ih =>
    by_cases hac : a = c
    · simp [splitAtFirst, hac]
    · cases hsp : splitAtFirst c as with
      | mk pre post =>
        rw [hsp] at ih
        simp only [splitAtFirst, if_neg hac, hsp]
        intro hx
        rcases List.mem_cons.mp hx with h1 | h1
        · exact hac h1.symm
        · exact ih h1

theorem splitAtFirst_snd_subset (c : Char) (l l2 : List Char)
    (h : (splitAtFirst c l).2 = some l2) : ∀ x ∈ l2, x ∈ l := by
  induction l generalizing l2 with
  | nil => simp [splitAtFirst] at h
  | cons a as ih =>
    by_cases hac : a = c
    · simp only [splitAtFirst, if_pos hac] at h
      intro x hx
      exact List.mem_cons_of_mem _ ((Option.some_inj.mp h) ▸ hx)
    · cases hsp : splitAtFirst c as with
      | mk pre post =>
        simp only [splitAtFirst, if_neg hac, hsp] at h
        rw [hsp] at ih
        intro x hx
        exact List.mem_cons_of_mem _ (ih l2 h x hx)

theorem splitAtLast_subset (c : Char) (l pre post : List Char)
    (h : splitAtLast c l = some (pre, post)) :
    (∀ x ∈ pre, x ∈ l) ∧ (∀ x ∈ post, x ∈ l) := by
  unfold splitAtLast at h
  cases hsp : splitAtFirst c l.reverse with
  | mk fst snd =>
    rw [hsp] at h
    cases snd with
    | none => simp at h
    | some beforeRev =>
      simp only [Option.some_inj, Prod.mk.injEq] at h
      have hpre : pre = beforeRev.reverse := h.1.symm
      have hpost : post = fst.reverse := h.2.symm
      constructor
      · intro x hx
        rw [hpre] at hx
        have : x ∈ beforeRev := List.mem_reverse.mp hx
        have : x ∈ l.reverse := by
          have hs := splitAtFirst_snd_subset c l.reverse beforeRev
          rw [hsp] at hs
          exact hs rfl x this
        exact List.mem_reverse.mp this
      · intro x hx
        rw [hpost] at hx
        have : x ∈ fst := List.mem_reverse.mp hx
        have : x ∈ l.reverse := by
          have hs := splitAtFirst_fst_subset c l.reverse
          rw [hsp] at hs
          exact hs x this
        exact List.mem_reverse.mp this

theorem splitParamsPath_subset (l : List Char) :
    ∀ x ∈ splitParamsPath l, x ∈ l ∨ x = '/' := by
  intro x hx
  cases hsl : splitAtLast '/' l with
  | none =>
    have he : splitParamsPath l = (splitAtFirst ';' l).1 := by
      unfold splitParamsPath
      rw [hsl]
    rw [he] at hx
    exact Or.inl (splitAtFirst_fst_subset ';' l x hx)
  | some pp =>
    cases pp with
    | mk pre post =>
      cases hsp : splitAtFirst ';' post with
      | mk cut rest =>
        cases rest with
        | none =>
          have he : splitParamsPath l = l := by
            simp only [splitParamsPath, hsl, hsp]
          rw [he] at hx
          exact Or.inl hx
        | some r =>
          have he : splitParamsPath l = pre ++ '/' :: cut := by
            simp only [splitParamsPath, hsl, hsp]
          rw [he] at hx
          rcases List.mem_append.mp hx with h1 | h1
          · exact Or.inl ((splitAtLast_subset '/' l pre post hsl).1 x h1)
          · rcases List.mem_cons.mp h1 with h2 | h2
            · exact Or.inr h2
            · have : x ∈ post := by
                have hs := splitAtFirst_fst_subset ';' post
                rw [hsp] at hs
                exact hs x h2
              exact Or.inl ((splitAtLast_subset '/' l pre post hsl).2 x this)

theorem pyUrlparse_path_no_qmark (u : String) (p : ParsedUrl)
    (h : pyUrlparse u = some p) : '?' ∉ p.path.data := by
  unfold pyUrlparse at h
  split at h
  · exact absurd h (by simp)
  · simp only [Option.some_inj] at h
    have hpath : p.path.data = urlPathFinal u := by rw [← h]
    rw [hpath]
    have hnq : '?' ∉ urlPath0 u := splitAtFirst_fst_not_mem '?' _
    unfold urlPathFinal
    by_cases hc : String.mk (urlSchemeOf u) ∈ usesParams ∧ ';' ∈ urlPath0 u
    · rw [if_pos hc]
      intro hq
      rcases splitParamsPath_subset (urlPath0 u) '?' hq with h1 | h1
      · exact hnq h1
      · exact absurd h1 (by decide)
    · rw [if_neg hc]
      exact hnq

theorem lookup_val_mem (c d : Char) :
    ∀ t : List (Char × Char), List.lookup c t = some d → d ∈ t.map Prod.snd := by
  intro t
  induction t with
  | nil => simp [List.lookup]
  | cons a rest ih =>
    obtain ⟨k, v⟩ := a
    intro h
    cases hbeq : c == k with
    | true =>
      simp only [List.lookup, hbeq, Option.some_inj] at h
      simp [List.map, ← h]
    | false =>
      simp only [List.lookup, hbeq] at h
      exact List.mem_cons_of_mem _ (ih h)

theorem asciiLowerC_eq_qmark (c : Char) (h : asciiLowerC c = '?') : c = '?' := by
  cases hl : List.lookup c lowerTable with
  | none =>
    have hd : asciiLowerC c = c := by
      unfold asciiLowerC
      rw [hl]
    rw [hd] at h
    exact h
  | some d =>
    have hd : asciiLowerC c = d := by
      unfold asciiLowerC
      rw [hl]
    rw [hd] at h
    subst h
    have hmem := lookup_val_mem c '?' lowerTable hl
    have hall : ∀ x ∈ lowerTable.map Prod.snd, x ≠ '?' := by decide
    exact absurd hmem (fun hm => hall '?' hm rfl)

theorem asciiLower_no_qmark (s : String) (h : '?' ∉ s.data) :
    '?' ∉ (asciiLower s).data := by
  intro hq
  have : ∃ c ∈ s.data, asciiLowerC c = '?' := List.mem_map.mp hq
  obtain ⟨c, hc, hcl⟩ := this
  exact h ((asciiLowerC_eq_qmark c hcl) ▸ hc)

theorem hasSubList_mem (needle hay : List Char) (h : hasSubList needle hay = true) :
    ∀ x ∈ needle, x ∈ hay := by
  intro x hx
  simp only [hasSubList, List.any_eq_true] at h
  obtain ⟨t, ht, hpre⟩ := h
  have h1 : needle <+: t := List.isPrefixOf_iff_prefix.mp hpre
  have h2 : t <:+ hay := (List.mem_tails t hay).mp ht
  exact h2.subset (h1.subset hx)

theorem any_congr_mem {α : Type} {l : List α} {f g : α → Bool}
    (h : ∀ x ∈ l, f x = g x) : l.any f = l.any g := by
  induction l with
  | nil => rfl
  | cons a as ih =>
    simp only [List.any_cons, h a (List.mem_cons_self a as),
      ih (fun x hx => h x (List.mem_cons_of_mem _ hx))]

theorem staticExtSearch_no_qmark (path : String) (h : '?' ∉ path.data) :
    staticExtSearch path =
      EXTS.any (fun e => ("." ++ e).data.isSuffixOf (asciiLower path).data) := by
  unfold staticExtSearch
  apply any_congr_mem
  intro e _
  have hsub : hasSubList ("." ++ e ++ "?").data (asciiLower path).data = false := by
    by_contra hne
    have : hasSubList ("." ++ e ++ "?").data (asciiLower path).data = true := by
      cases hb : hasSubList ("." ++ e ++ "?").data (asciiLower path).data
      · exact absurd hb hne
      · rfl
    have hqn : '?' ∈ ("." ++ e ++ "?").data := by
      have : ("." ++ e ++ "?").data = ("." ++ e).data ++ ['?'] := rfl
      rw [this]
      exact List.mem_append_right _ (List.mem_singleton.mpr rfl)
    exact asciiLower_no_qmark path h (hasSubList_mem _ _ this '?' hqn)
  rw [hsub, Bool.or_false]

/-- C3.  For every URL string `u`, the Scope Filter `is_allowed` returns
`true` iff `u` parses (malformed URLs are rejected, never propagated as
an exception, and the function is total), its scheme is `http` or
`https`, its lower-cased netloc is in the allow-set
`{deltawonen.nl, www.deltawonen.nl}`, and its path does not end,
case-insensitively, in one of the denylisted static-asset extensions.
The `(\\?.*)?` alternative of the source regex is inert because a parsed
path never contains `?`. -/
theorem c3_scope_filter_characterization (u : String) :
    is_allowed u = true ↔
      ∃ p, pyUrlparse u = some p ∧
        (p.scheme = "http" ∨ p.scheme = "https") ∧
        asciiLower p.netloc ∈ ALLOWED_NETLOCS ∧
        ∀ e ∈ EXTS, ¬ (("." ++ e).data.isSuffixOf (asciiLower p.path).data = true) := by
  cases hp : pyUrlparse u with
  | none =>
    simp only [is_allowed, hp]
    constructor
    · intro hfalse
      exact absurd hfalse (by simp)
    · intro hex
      obtain ⟨p, hps, _⟩ := hex
      exact absurd hps (by simp)
  | some p =>
    simp only [is_allowed, hp, Option.some_inj]
    have hnq := pyUrlparse_path_no_qmark u p hp
    constructor
    · intro hall
      by_cases h1 : p.scheme = "http" ∨ p.scheme = "https"
      · by_cases h2 : asciiLower p.netloc ∈ ALLOWED_NETLOCS
        · refine ⟨p, rfl, h1, h2, ?_⟩
          rw [if_neg (not_not_intro h1), if_neg (not_not_intro h2)] at hall
          by_cases h3 : staticExtSearch p.path = true
          · rw [if_pos h3] at hall
            exact absurd hall (by simp)
          · intro e he hsuf
            have := staticExtSearch_no_qmark p.path hnq
            rw [this] at h3
            exact h3 (List.any_eq_true.mpr ⟨e, he, hsuf⟩)
        · rw [if_neg (not_not_intro h1), if_pos h2] at hall
          exact absurd hall (by simp)
      · rw [if_pos h1] at hall
        exact absurd hall (by simp)
    · intro hex
      obtain ⟨q, hq, h1, h2, h3⟩ := hex
      have hqp : q = p := hq.symm
      subst hqp
      rw [if_neg (not_not_intro h1), if_neg (not_not_intro h2)]
      have hst : staticExtSearch q.path = false := by
        rw [staticExtSearch_no_qmark q.path hnq]
        exact List.any_eq_false.mpr (fun e he => by simpa using h3 e he)
      rw [if_neg (by simp [hst])]

/-! ## Lemmas about hashing and filenames -/

theorem wordHex_length (w : Nat) : (wordHex w).length = 8 := by
  simp [wordHex]

theorem sha1Words_length (m : List Nat) : (sha1Words m).length = 5 := rfl

theorem mapHexFlatten_length (ws : List Nat) :
    ((ws.map wordHex).flatten).length = 8 * ws.length := by
  induction ws with
  | nil => simp
  | cons w rest ih =>
    simp only [List.map_cons, List.flatten_cons, List.length_append, wordHex_length, ih,
      List.length_cons]
    ring

theorem sha1_text_length (s : String) : (sha1_text s).length = 40 := by
  have h := mapHexFlatten_length (sha1Words (utf8Bytes s))
  rw [sha1Words_length] at h
  exact h

theorem sha1_text_ne_empty (s : String) : sha1_text s ≠ "" := by
  intro h
  have := sha1_text_length s
  rw [h] at this
  exact absurd this (by decide)

theorem stringMk_ne_empty (l : List Char) (h : l ≠ []) : String.mk l ≠ "" := by
  intro he
  exact h (congrArg String.data he)

theorem data_ne_nil_of_ne_empty (s : String) (h : s ≠ "") : s.data ≠ [] := by
  intro hd
  cases s with
  | mk l => exact h (congrArg String.mk hd)

theorem sanitizeGo_false_ne_nil (l : List Char) (h : l ≠ []) :
    sanitizeGo false l ≠ [] := by
  cases l with
  | nil => exact absurd rfl h
  | cons c rest =>
    unfold sanitizeGo
    by_cases hc : fnameOkChar c
    · simp [hc]
    · simp [hc]

theorem cdFilenameGo_some_ne_nil (l cap : List Char) (h : cdFilenameGo l = some cap) :
    cap ≠ [] := by
  induction l with
  | nil => simp [cdFilenameGo] at h
  | cons c rest ih =>
    unfold cdFilenameGo at h
    split at h
    · rename_i hcond
      have : cap = cdCapture (c :: rest) := (Option.some_inj.mp h).symm
      rw [this]
      exact hcond.2
    · exact ih h

theorem guess_filename_ne_empty (url : String) (headers : List (String × String)) :
    guess_filename url headers ≠ "" := by
  unfold guess_filename
  cases hcd : cdFilenameGo (match headersGet headers "Content-Disposition" with
      | some v => if v = "" then (headersGet headers "content-disposition").getD "" else v
      | none => (headersGet headers "content-disposition").getD "").data with
  | some n =>
    simp only [hcd]
    exact stringMk_ne_empty _ (sanitizeGo_false_ne_nil _ (cdFilenameGo_some_ne_nil _ _ hcd))
  | none =>
    simp only [hcd]
    by_cases h0 : basenameOf (urlPathOf url) = ""
    · simp only [h0, if_pos]
      exact stringMk_ne_empty _ (sanitizeGo_false_ne_nil _ (by decide))
    · simp only [if_neg h0]
      exact stringMk_ne_empty _ (sanitizeGo_false_ne_nil _ (data_ne_nil_of_ne_empty _ h0))

/-! ## Lemmas about one classification/visit step -/

theorem processFetched_url (env : Env) (url : String) (seen : List String) (status : Nat)
    (ctype body : String) (headers : List (String × String)) :
    (processFetched env url seen status ctype body headers).1.url = url := by
  simp only [processFetched]
  split_ifs <;> rfl

theorem processFetched_qa_iff (env : Env) (url : String) (seen : List String) (status : Nat)
    (ctype body : String) (headers : List (String × String)) :
    (processFetched env url seen status ctype body headers).2.1 ≠ [] ↔
      qaQualifies (processFetched env url seen status ctype body headers).1 := by
  simp only [processFetched]
  split_ifs <;>
    simp_all [qaQualifies, guess_filename_ne_empty]

theorem processFetched_sha1 (env : Env) (url : String) (seen : List String) (status : Nat)
    (ctype body : String) (headers : List (String × String)) :
    (processFetched env url seen status ctype body headers).1.sha1 =
        sha1_text (processFetched env url seen status ctype body headers).1.text ∨
      (processFetched env url seen status ctype body headers).1.sha1 = "" := by
  simp only [processFetched]
  split_ifs <;> simp

theorem processFetched_non200 (env : Env) (url : String) (seen : List String) (status : Nat)
    (ctype body : String) (headers : List (String × String)) (h : status ≠ 200) :
    processFetched env url seen status ctype body headers =
      (⟨url, "error", "", "HTTP " ++ toString status, status, "", []⟩, [], []) := by
  simp only [processFetched, if_neg h]

theorem processFetched_html_enq (env : Env) (url : String) (seen : List String) (status : Nat)
    (ctype body : String) (headers : List (String × String))
    (h200 : status = 200) (hhtml : pyContains (asciiLower ctype) "text/html" = true) :
    (processFetched env url seen status ctype body headers).2.2 =
      (discover_links env url body).filter (fun u2 =>
        !(seen.contains u2) && is_allowed u2 && allowed_by_robots env.rp u2) := by
  simp only [processFetched, if_pos h200, if_pos hhtml]

/-! ## Equations of the crawl loop -/

theorem crawlStep_nil (env : Env) (st : CrawlState) (h : st.queue = []) :
    crawlStep env st = st := by
  simp only [crawlStep, h]

theorem crawlStep_skip (env : Env) (st : CrawlState) (url : String) (rest : List String)
    (hq : st.queue = url :: rest) (hs : url ∈ st.seen) :
    crawlStep env st = { st with queue := rest } := by
  simp only [crawlStep, hq]
  rw [if_pos hs]

theorem crawlStep_exn (env : Env) (st : CrawlState) (url : String) (rest : List String)
    (e : String) (hq : st.queue = url :: rest) (hs : url ∉ st.seen)
    (hf : env.fetch url = .exn e) :
    crawlStep env st =
      { st with
        queue := rest,
        seen := url :: st.seen,
        raw := st.raw ++
          [⟨url, "error", "", "[[FETCH ERROR: " ++ e ++ "]]", 0, "", []⟩] } := by
  simp only [crawlStep, hq]
  rw [if_neg hs]
  simp only [hf]

theorem crawlStep_ok (env : Env) (st : CrawlState) (url : String) (rest : List String)
    (status : Nat) (ctype body : String) (headers : List (String × String))
    (hq : st.queue = url :: rest) (hs : url ∉ st.seen)
    (hf : env.fetch url = .ok status ctype body headers) :
    crawlStep env st =
      { queue := rest ++ (processFetched env url (url :: st.seen) status ctype body headers).2.2,
        seen := url :: st.seen,
        raw := st.raw ++ [(processFetched env url (url :: st.seen) status ctype body headers).1],
        qa := st.qa ++ (processFetched env url (url :: st.seen) status ctype body headers).2.1,
        count := st.count + 1,
        sleeps := st.sleeps + 1 } := by
  simp only [crawlStep, hq]
  rw [if_neg hs]
  simp only [hf]

theorem crawl_succ (env : Env) (fuel : Nat) (st : CrawlState) :
    crawl env (fuel + 1) st =
      if st.queue ≠ [] ∧ st.count < env.maxPages then crawl env fuel (crawlStep env st)
      else st := rfl

theorem crawl_empty_queue (env : Env) (fuel : Nat) (st : CrawlState) (h : st.queue = []) :
    crawl env fuel st = st := by
  cases fuel with
  | zero => rfl
  | succ n =>
    rw [crawl_succ]
    rw [if_neg (by simp [h])]

/-! ## The at-most-once invariant of the raw stream -/

theorem crawlStep_seen_mono (env : Env) (st : CrawlState) :
    ∀ u ∈ st.seen, u ∈ (crawlStep env st).seen := by
  intro u hu
  cases hq : st.queue with
  | nil => rw [crawlStep_nil env st hq]; exact hu
  | cons url rest =>
    by_cases hs : url ∈ st.seen
    · rw [crawlStep_skip env st url rest hq hs]; exact hu
    · cases hf : env.fetch url with
      | exn e =>
        rw [crawlStep_exn env st url rest e hq hs hf]
        exact List.mem_cons_of_mem _ hu
      | ok status ctype body headers =>
        rw [crawlStep_ok env st url rest status ctype body headers hq hs hf]
        exact List.mem_cons_of_mem _ hu

theorem crawlStep_raw_inv (env : Env) (st : CrawlState)
    (h1 : ∀ r ∈ st.raw, r.url ∈ st.seen)
    (h2 : ∀ u, st.raw.countP (fun r => r.url == u) ≤ 1) :
    (∀ r ∈ (crawlStep env st).raw, r.url ∈ (crawlStep env st).seen) ∧
      ∀ u, (crawlStep env st).raw.countP (fun r => r.url == u) ≤ 1 := by
  cases hq : st.queue with
  | nil =>
    rw [crawlStep_nil env st hq]
    exact ⟨h1, h2⟩
  | cons url rest =>
    by_cases hs : url ∈ st.seen
    · rw [crawlStep_skip env st url rest hq hs]
      exact ⟨h1, h2⟩
    · have hcount0 : ∀ rec : PageItem, rec.url = url →
          st.raw.countP (fun r => r.url == rec.url) = 0 := by
        intro rec hrec
        rw [List.countP_eq_zero]
        intro r hr hbeq
        have : r.url = rec.url := by simpa using hbeq
        exact hs (hrec ▸ this ▸ h1 r hr)
      have key : ∀ rec : PageItem, rec.url = url →
          (∀ r ∈ st.raw ++ [rec], r.url ∈ url :: st.seen) ∧
            ∀ u, (st.raw ++ [rec]).countP (fun r => r.url == u) ≤ 1 := by
        intro rec hrec
        constructor
        · intro r hr
          rcases List.mem_append.mp hr with hr | hr
          · exact List.mem_cons_of_mem _ (h1 r hr)
          · rw [List.mem_singleton.mp hr, hrec]
            exact List.mem_cons_self _ _
        · intro u
          rw [List.countP_append, List.countP_cons, List.countP_nil]
          by_cases hu : rec.url == u
          · have hueq : rec.url = u := by simpa using hu
            have h0 : st.raw.countP (fun r => r.url == u) = 0 := hueq ▸ hcount0 rec hrec
            simp [h0, hu]
          · simp only [hu, if_false]
            simpa using h2 u
      cases hf : env.fetch url with
      | exn e =>
        rw [crawlStep_exn env st url rest e hq hs hf]
        exact key _ rfl
      | ok status ctype body headers =>
        rw [crawlStep_ok env st url rest status ctype body headers hq hs hf]
        exact key _ (processFetched_url env url (url :: st.seen) status ctype body headers)

theorem crawl_raw_inv (env : Env) (fuel : Nat) (st : CrawlState)
    (h1 : ∀ r ∈ st.raw, r.url ∈ st.seen)
    (h2 : ∀ u, st.raw.countP (fun r => r.url == u) ≤ 1) :
    ∀ u, (crawl env fuel st).raw.countP (fun r => r.url == u) ≤ 1 := by
  induction fuel generalizing st with
  | zero => exact h2
  | succ n ih =>
    rw [crawl_succ]
    by_cases hc : st.queue ≠ [] ∧ st.count < env.maxPages
    · rw [if_pos hc]
      have := crawlStep_raw_inv env st h1 h2
      exact ih (crawlStep env st) this.1 this.2
    · rw [if_neg hc]
      exact h2

/-! ## The claims -/

/-- C2.  In every crawl run each distinct URL is fetched at most once: the
raw-page stream of any reachable final state contains at most one
PageRecord with any given exact URL string, because a URL is added to the
seen set before its fetch and a later dequeue of a URL already in the
seen set is skipped without fetching or writing. -/
theorem c2_each_url_fetched_at_most_once (env : Env) (seeds : List String) (fuel : Nat)
    (u : String) :
    ((crawl env fuel (initState env seeds)).raw.countP (fun r => r.url == u)) ≤ 1 := by
  apply crawl_raw_inv
  · intro r hr
    simp [initState] at hr
  · intro v
    simp [initState]

/-- C4.  When a fetch raises a transport-level exception the loop catches
it, appends a PageRecord with `content_type = "error"`, `status = 0` and
a human-readable error marker containing the exception text, leaves the
QA stream untouched, and continues with the next queued URL (the loop
unfolds to the same loop on the successor state). -/
theorem c4_transport_error_recorded (env : Env) (st : CrawlState) (url : String)
    (rest : List String) (e : String) (hq : st.queue = url :: rest) (hs : url ∉ st.seen)
    (hf : env.fetch url = .exn e) :
    (crawlStep env st).raw =
        st.raw ++ [⟨url, "error", "", "[[FETCH ERROR: " ++ e ++ "]]", 0, "", []⟩] ∧
      (crawlStep env st).queue = rest ∧
      (crawlStep env st).seen = url :: st.seen ∧
      (crawlStep env st).qa = st.qa ∧
      ∀ fuel : Nat, st.count < env.maxPages →
        crawl env (fuel + 1) st = crawl env fuel (crawlStep env st) := by
  rw [crawlStep_exn env st url rest e hq hs hf]
  refine ⟨rfl, rfl, rfl, rfl, ?_⟩
  intro fuel hcount
  rw [crawl_succ, if_pos ⟨by simp [hq], hcount⟩]
  rw [crawlStep_exn env st url rest e hq hs hf]

/-- Witness for C4 at a concrete environment where every fetch raises. -/
theorem c4_transport_error_recorded_witness :
    (crawlStep envDown (initState envDown ["https://www.deltawonen.nl/err"])).raw =
      (initState envDown ["https://www.deltawonen.nl/err"]).raw ++
        [⟨"https://www.deltawonen.nl/err", "error", "", "[[FETCH ERROR: boom]]", 0, "", []⟩] :=
  (c4_transport_error_recorded envDown (initState envDown ["https://www.deltawonen.nl/err"])
    "https://www.deltawonen.nl/err" [] "boom" (by decide) (by decide) rfl).1

/-- C5, counterexample.  It is not the case that the loop sleeps after
every visited (dequeued, unseen, hence fetched) URL: on the
transport-error path the `continue` skips the sleep. -/
theorem c5_counterexample :
    ¬ (∀ (env : Env) (st : CrawlState) (url : String) (rest : List String),
        st.queue = url :: rest → url ∉ st.seen →
        (crawlStep env st).sleeps = st.sleeps + 1) := by
  intro h
  have := h envDown (initState envDown ["https://www.deltawonen.nl/err"])
    "https://www.deltawonen.nl/err" [] (by decide) (by decide)
  exact absurd this (by decide)

/-- C5, amended.  After a visited URL the loop sleeps the configured
delay exactly when the fetch returned (any status); when the fetch
raised, the `continue` skips the sleep (and the budget count). -/
theorem c5_amended_sleep_iff_fetch_returned (env : Env) (st : CrawlState) (url : String)
    (rest : List String) (hq : st.queue = url :: rest) (hs : url ∉ st.seen) :
    (crawlStep env st).sleeps =
      (match env.fetch url with
        | .exn _ => st.sleeps
        | .ok _ _ _ _ => st.sleeps + 1) ∧
      (crawlStep env st).count =
      (match env.fetch url with
        | .exn _ => st.count
        | .ok _ _ _ _ => st.count + 1) := by
  cases hf : env.fetch url with
  | exn e =>
    rw [crawlStep_exn env st url rest e hq hs hf]
    exact ⟨rfl, rfl⟩
  | ok status ctype body headers =>
    rw [crawlStep_ok env st url rest status ctype body headers hq hs hf]
    exact ⟨rfl, rfl⟩

/-- Witness for the amended C5 at the transport-error environment. -/
theorem c5_amended_witness :
    (crawlStep envDown (initState envDown ["https://www.deltawonen.nl/err"])).sleeps =
      (match envDown.fetch "https://www.deltawonen.nl/err" with
        | .exn _ => (initState envDown ["https://www.deltawonen.nl/err"]).sleeps
        | .ok _ _ _ _ => (initState envDown ["https://www.deltawonen.nl/err"]).sleeps + 1) :=
  (c5_amended_sleep_iff_fetch_returned envDown
    (initState envDown ["https://www.deltawonen.nl/err"])
    "https://www.deltawonen.nl/err" [] (by decide) (by decide)).1

/-- C6, counterexample.  A non-200 response does not produce a record
whose `content_type` equals the content-type header that was present:
the source writes the literal `"error"` instead. -/
theorem c6_counterexample :
    ¬ (∀ (env : Env) (st : CrawlState) (url : String) (rest : List String) (status : Nat)
        (ctype body : String) (headers : List (String × String)),
        st.queue = url :: rest → url ∉ st.seen →
        env.fetch url = .ok status ctype body headers → status ≠ 200 →
        ∀ r ∈ (crawlStep env st).raw, r.url = url → r.content_type = ctype) := by
  intro h
  have := h env404 (initState env404 ["https://www.deltawonen.nl/missing"])
    "https://www.deltawonen.nl/missing" [] 404 "text/html" "" [] (by decide) (by decide)
    rfl (by decide)
    ⟨"https://www.deltawonen.nl/missing", "error", "", "HTTP 404", 404, "", []⟩
    (by decide) (by decide)
  exact absurd this (by decide)

/-- C6, amended.  A non-200 response writes exactly one PageRecord whose
`status` is the HTTP status but whose `content_type` is the literal
`"error"` and whose text is `HTTP <status>`; no QARecord is emitted and
no frontier entries are enqueued. -/
theorem c6_amended_non200_error_record (env : Env) (st : CrawlState) (url : String)
    (rest : List String) (status : Nat) (ctype body : String)
    (headers : List (String × String)) (hq : st.queue = url :: rest) (hs : url ∉ st.seen)
    (hf : env.fetch url = .ok status ctype body headers) (h200 : status ≠ 200) :
    (crawlStep env st).raw =
        st.raw ++ [⟨url, "error", "", "HTTP " ++ toString status, status, "", []⟩] ∧
      (crawlStep env st).qa = st.qa ∧
      (crawlStep env st).queue = rest := by
  rw [crawlStep_ok env st url rest status ctype body headers hq hs hf,
    processFetched_non200 env url (url :: st.seen) status ctype body headers h200]
  exact ⟨rfl, by simp, by simp⟩

/-- Witness for the amended C6 at a concrete 404 environment. -/
theorem c6_amended_witness :
    (crawlStep env404 (initState env404 ["https://www.deltawonen.nl/missing"])).raw =
      (initState env404 ["https://www.deltawonen.nl/missing"]).raw ++
        [⟨"https://www.deltawonen.nl/missing", "error", "", "HTTP " ++ toString 404, 404,
          "", []⟩] :=
  (c6_amended_non200_error_record env404 (initState env404 ["https://www.deltawonen.nl/missing"])
    "https://www.deltawonen.nl/missing" [] 404 "text/html" "" [] (by decide) (by decide)
    rfl (by decide)).1

/-- C1, counterexample.  It is not the case that a QARecord is emitted
iff the PageRecord has non-empty title and non-empty text: a PDF whose
extraction yields empty text still gets a QARecord (the pdf/docx
branches write to the QA stream unconditionally). -/
theorem c1_counterexample :
    ¬ (∀ (env : Env) (seeds : List String) (fuel : Nat) (url : String),
        (∃ q ∈ (crawl env fuel (initState env seeds)).qa, q.sources = [url]) ↔
          ∃ r ∈ (crawl env fuel (initState env seeds)).raw,
            r.url = url ∧ r.title ≠ "" ∧ r.text ≠ "") := by
  intro h
  have := (h envPdfEmpty ["https://www.deltawonen.nl/f.pdf"] 3
    "https://www.deltawonen.nl/f.pdf").mp (by decide)
  exact absurd this (by decide)

/-- C1, amended.  In any step of the loop, a QARecord is appended iff
the appended PageRecord is an html record with non-empty title and text,
or a pdf/docx record - whose title (a sanitized filename) is always
non-empty but whose text may be empty. -/
theorem c1_amended_qa_iff_qualifying_record (env : Env) (st : CrawlState) :
    (crawlStep env st).qa.drop st.qa.length ≠ [] ↔
      ∃ r ∈ (crawlStep env st).raw.drop st.raw.length, qaQualifies r := by
  cases hq : st.queue with
  | nil =>
    rw [crawlStep_nil env st hq]
    simp [List.drop_length]
  | cons url rest =>
    by_cases hs : url ∈ st.seen
    · rw [crawlStep_skip env st url rest hq hs]
      simp [List.drop_length]
    · cases hf : env.fetch url with
      | exn e =>
        rw [crawlStep_exn env st url rest e hq hs hf]
        simp [List.drop_length, List.drop_left, qaQualifies]
      | ok status ctype body headers =>
        rw [crawlStep_ok env st url rest status ctype body headers hq hs hf]
        rw [List.drop_left, List.drop_left]
        constructor
        · intro hne
          exact ⟨_, List.mem_singleton.mpr rfl,
            (processFetched_qa_iff env url (url :: st.seen) status ctype body headers).mp hne⟩
        · intro hex
          obtain ⟨r, hr, hqual⟩ := hex
          exact (processFetched_qa_iff env url (url :: st.seen) status ctype body headers).mpr
            (List.mem_singleton.mp hr ▸ hqual)

/-- C7.  robots.txt is fetched once at start-up; but a swallowed failure
of `rp.read()` is not "no restrictions": the unread parser refuses every
URL (CPython `can_fetch` returns False when `last_checked` is unset), so
nothing passes the seed filter and the crawl writes no records at all. -/
theorem c7_robots_read_failure_is_fail_closed :
    (∀ u : String, allowed_by_robots (get_robot_policy .raised) u = false) ∧
      ∀ (maxPages : Nat) (fetch : String → FetchOutcome)
        (cleanHtml : String → String × String) (fullText : String → String)
        (absHrefs : String → String → List String) (pdfRaw : String → ExtractOutcome)
        (docxRaw : String → DocxOutcome) (seeds : List String) (fuel : Nat),
        (crawl ⟨get_robot_policy .raised, maxPages, fetch, cleanHtml, fullText, absHrefs,
            pdfRaw, docxRaw⟩ fuel
          (initState ⟨get_robot_policy .raised, maxPages, fetch, cleanHtml, fullText,
            absHrefs, pdfRaw, docxRaw⟩ seeds)).raw = [] := by
  constructor
  · intro u
    rfl
  · intro maxPages fetch cleanHtml fullText absHrefs pdfRaw docxRaw seeds fuel
    have hq : (initState ⟨get_robot_policy .raised, maxPages, fetch, cleanHtml, fullText,
        absHrefs, pdfRaw, docxRaw⟩ seeds).queue = [] := by
      simp only [initState]
      rw [List.filter_eq_nil_iff]
      intro a _
      simp [allowed_by_robots, get_robot_policy, rpCanFetch]
    rw [crawl_empty_queue _ fuel _ hq]
    rfl

set_option maxRecDepth 40000 in
/-- C8, counterexample.  `content_hash` is not empty iff the text is
empty: an html record with empty extracted text carries the (40-char)
sha1 of the empty string, and a transport-error record has an empty
hash next to a non-empty error-marker text. -/
theorem c8_counterexample :
    ¬ (∀ r ∈ (crawl envHtmlEmpty 4 (initState envHtmlEmpty
          ["https://www.deltawonen.nl/empty", "https://www.deltawonen.nl/err"])).raw,
        (r.sha1 = "" ↔ r.text = "")) := by
  decide

/-- C8, amended.  Every record appended by a step either carries
`sha1_text` of its own text (html/pdf/docx branches - a 40-character
digest, non-empty even for empty text) or the empty string (the other,
non-200 and transport-error branches - even when the text is a non-empty
marker). -/
theorem c8_amended_hash_shape (env : Env) (st : CrawlState) :
    ∀ r ∈ (crawlStep env st).raw.drop st.raw.length,
      (r.sha1 = sha1_text r.text ∨ r.sha1 = "") ∧ (sha1_text r.text).length = 40 := by
  intro r hr
  refine ⟨?_, sha1_text_length r.text⟩
  cases hq : st.queue with
  | nil =>
    rw [crawlStep_nil env st hq, List.drop_length] at hr
    exact absurd hr (List.not_mem_nil r)
  | cons url rest =>
    by_cases hs : url ∈ st.seen
    · rw [crawlStep_skip env st url rest hq hs] at hr
      rw [List.drop_length] at hr
      exact absurd hr (List.not_mem_nil r)
    · cases hf : env.fetch url with
      | exn e =>
        rw [crawlStep_exn env st url rest e hq hs hf] at hr
        rw [List.drop_left] at hr
        rw [List.mem_singleton.mp hr]
        exact Or.inr rfl
      | ok status ctype body headers =>
        rw [crawlStep_ok env st url rest status ctype body headers hq hs hf] at hr
        rw [List.drop_left] at hr
        rw [List.mem_singleton.mp hr]
        exact processFetched_sha1 env url (url :: st.seen) status ctype body headers

set_option maxRecDepth 40000 in
/-- Witness for the amended C8: the html-with-empty-text record. -/
theorem c8_amended_witness :
    ((⟨"https://www.deltawonen.nl/empty", "html", "Empty page", "", 200, sha1_text "",
        []⟩ : PageItem).sha1 =
      sha1_text (⟨"https://www.deltawonen.nl/empty", "html", "Empty page", "", 200,
        sha1_text "", []⟩ : PageItem).text ∨
      (⟨"https://www.deltawonen.nl/empty", "html", "Empty page", "", 200, sha1_text "",
        []⟩ : PageItem).sha1 = "") ∧
      (sha1_text (⟨"https://www.deltawonen.nl/empty", "html", "Empty page", "", 200,
        sha1_text "", []⟩ : PageItem).text).length = 40 :=
  c8_amended_hash_shape envHtmlEmpty (initState envHtmlEmpty
    ["https://www.deltawonen.nl/empty", "https://www.deltawonen.nl/err"])
    ⟨"https://www.deltawonen.nl/empty", "html", "Empty page", "", 200, sha1_text "", []⟩
    (by decide)

/-! ## The truncation law of `summarize` -/

theorem mk_append_length (l : List Char) (t : String) :
    (String.mk l ++ t).length = l.length + t.length := by
  show (l ++ t.data).length = l.length + t.data.length
  exact List.length_append l t.data

set_option maxRecDepth 40000 in
/-- C9, counterexample.  The truncation marker is not present iff the
*source* text exceeded `max_chars`: a source of one letter and a
thousand spaces exceeds 1000 characters, yet its whitespace-normalized
form is one character long and the answer carries no marker. -/
theorem c9_counterexample :
    ¬ (∀ (text : String) (max_chars : Nat),
        strEndsWith (summarize text max_chars) "…" = true ↔ max_chars < text.length) := by
  intro h
  have := (h (String.mk ('a' :: List.replicate 1000 ' ')) 1000).mpr (by decide)
  exact absurd this (by decide)

/-- C9, amended.  For every text and bound, the answer produced by
`summarize` has length at most `max_chars + 1`, and it has length
exactly `max_chars + 1` - equivalently, the truncation marker was
appended - iff the whitespace-normalized text (`" ".join(text.split())`),
not the raw source text, exceeds `max_chars`. -/
theorem c9_amended_truncation_law (text : String) (max_chars : Nat) :
    (summarize text max_chars).length ≤ max_chars + 1 ∧
      ((summarize text max_chars).length = max_chars + 1 ↔
        max_chars < (joinSpace (pySplit text)).length) := by
  have hlen : (summarize text max_chars).length =
      min max_chars (joinSpace (pySplit text)).data.length +
        if max_chars < (joinSpace (pySplit text)).data.length then 1 else 0 := by
    simp only [summarize]
    by_cases hl : max_chars < (joinSpace (pySplit text)).data.length
    · rw [if_pos hl, if_pos hl, mk_append_length, List.length_take]
      rfl
    · rw [if_neg hl, if_neg hl, mk_append_length, List.length_take]
      rfl
  have hL : (joinSpace (pySplit text)).length = (joinSpace (pySplit text)).data.length := rfl
  rw [hlen, hL]
  by_cases hl : max_chars < (joinSpace (pySplit text)).data.length
  · rw [if_pos hl]
    exact ⟨by omega, fun _ => hl, fun _ => by omega⟩
  · rw [if_neg hl]
    exact ⟨by omega, fun hc => by omega, fun hc => absurd hc hl⟩

/-- C10.  The enqueue filter of link discovery consults only the seen
set, the Scope Filter and the Robots Policy - never the queue - so the
frontier can hold the same URL several times (here twice, after pages
`a` and `b` both link to `c`), while the seen-set check at dequeue time
still yields exactly one PageRecord for that URL. -/
theorem c10_frontier_may_hold_duplicates :
    (∀ (env : Env) (st : CrawlState) (url : String) (rest : List String)
        (ctype body : String) (headers : List (String × String)),
        st.queue = url :: rest → url ∉ st.seen →
        env.fetch url = .ok 200 ctype body headers →
        pyContains (asciiLower ctype) "text/html" = true →
        (crawlStep env st).queue =
          rest ++ (discover_links env url body).filter (fun u2 =>
            !((url :: st.seen).contains u2) && is_allowed u2 &&
              allowed_by_robots env.rp u2)) ∧
      (crawl envLinks 2 (initState envLinks ["https://www.deltawonen.nl/a"])).queue =
        ["https://www.deltawonen.nl/c", "https://www.deltawonen.nl/c"] ∧
      (crawl envLinks 10 (initState envLinks ["https://www.deltawonen.nl/a"])).raw.countP
        (fun r => r.url == "https://www.deltawonen.nl/c") = 1 := by
  refine ⟨?_, by decide, by decide⟩
  intro env st url rest ctype body headers hq hs hf hhtml
  rw [crawlStep_ok env st url rest 200 ctype body headers hq hs hf,
    processFetched_html_enq env url (url :: st.seen) 200 ctype body headers rfl hhtml]

/-- Witness for C10 at the concrete linking environment. -/
theorem c10_witness :
    (crawlStep envLinks (initState envLinks ["https://www.deltawonen.nl/a"])).queue =
      [] ++ (discover_links envLinks "https://www.deltawonen.nl/a" "PA").filter (fun u2 =>
        !(("https://www.deltawonen.nl/a" ::
            (initState envLinks ["https://www.deltawonen.nl/a"]).seen).contains u2) &&
          is_allowed u2 && allowed_by_robots envLinks.rp u2) :=
  c10_frontier_may_hold_duplicates.1 envLinks
    (initState envLinks ["https://www.deltawonen.nl/a"]) "https://www.deltawonen.nl/a" []
    "text/html" "PA" [] (by decide) (by decide) rfl (by decide)
